import Mathlib

/-!
Verification of dslgen's `demo_polars_lark.py` against its specification.

This file shallowly embeds the Python source: the Griffe expression nodes
(`ExprName`, `ExprAttribute`, other nodes), the Griffe member tree, and the
functions `find_object_by_name`, `_flatten_expr_attribute`,
`build_polars_api_map` (its pure part, parameterised by the loaded member
tree), and `generate_lark_grammar`.  Python dicts are embedded as insertion
ordered association lists, Python sets as first-occurrence deduplicated
lists (Python's set iteration order is unspecified; all theorems proved
about the set are order independent), and Python strings as Lean strings.
-/

namespace Dslgen

/-- Griffe return-type expression nodes, as used by the source: `ExprName`
carries a plain name, `ExprAttribute` carries its `values` list, and every
other node kind is represented by its opaque `str(...)` rendering. -/
inductive Expr where
  | name (s : String)
  | attribute (values : List Expr)
  | other (repr : String)

/-- Embedding of `_flatten_expr_attribute` (demo_polars_lark.py lines 38-53),
written on the `values` list of the `ExprAttribute` being flattened: the
Python loop appends the name of an `ExprName`, recursively extends with the
flattening of a nested `ExprAttribute`, and appends `str(val)` for any other
node. -/
def flatten_expr_attribute : List Expr → List String
  | [] => []
  | Expr.name s :: rest => s :: flatten_expr_attribute rest
  | Expr.attribute vs :: rest => flatten_expr_attribute vs ++ flatten_expr_attribute rest
  | Expr.other r :: rest => r :: flatten_expr_attribute rest

/-- Embedding of the return-annotation normalization in
`build_polars_api_map` (demo_polars_lark.py lines 87-103): `None` stays
absent, an `ExprName` yields its name, an `ExprAttribute` yields its
flattening joined with ".", and any other node falls back to `str(ann)`. -/
def normalize_returns : Option Expr → Option String
  | none => none
  | some (Expr.name s) => some s
  | some (Expr.attribute vs) => some (String.intercalate "." (flatten_expr_attribute vs))
  | some (Expr.other r) => some r

/-- The leaf fragments of an expression, depth-first and left-to-right:
a plain name contributes itself, a nested attribute chain contributes the
fragments of its values, any other node contributes its opaque rendering.
This is the reference description of flattening given by the spec
("recursively flatten every element: a plain name contributes itself; a
nested attribute chain contributes its own flattened sequence (depth-first,
left-to-right); any other expression kind contributes a best-effort opaque
string rendering of itself"). -/
def exprLeaves : Expr → List String
  | Expr.name s => [s]
  | Expr.other r => [r]
  | Expr.attribute vs => (vs.attach.map (fun e => exprLeaves e.1)).flatten
decreasing_by
  have h1 := List.sizeOf_lt_of_mem e.2
  have h2 : sizeOf (Expr.attribute vs) = 1 + sizeOf vs := by simp
  omega

/-- Return-type normalization as worded by the spec (section 4.2): absent
when no expression is present; a plain name verbatim; an attribute chain's
leaf fragments joined with "."; an opaque rendering for anything else. -/
def normalize_spec : Option Expr → Option String
  | none => none
  | some (Expr.name s) => some s
  | some (Expr.attribute vs) => some (String.intercalate "." ((vs.map exprLeaves).flatten))
  | some (Expr.other r) => some r

theorem exprLeaves_attribute (vs : List Expr) :
    exprLeaves (Expr.attribute vs) = (vs.map exprLeaves).flatten := by
  simp only [exprLeaves]
  congr 1
  exact List.attach_map_coe vs exprLeaves

theorem flatten_eq_leaves : ∀ vs : List Expr, flatten_expr_attribute vs = (vs.map exprLeaves).flatten := by
  intro vs
  induction vs using flatten_expr_attribute.induct with
  | case1 => simp [flatten_expr_attribute]
  | case2 s rest ih => simp [flatten_expr_attribute, exprLeaves, ih]
  | case3 vs' rest ih1 ih2 =>
      simp [flatten_expr_attribute, exprLeaves_attribute, ih1, ih2]
  | case4 r rest ih => simp [flatten_expr_attribute, exprLeaves, ih]

/-- A Griffe member-tree node as used by the source: an own `name`, an
insertion-ordered `members` mapping (short name to child node), the
`is_function` flag, and the optional `returns` annotation of function-like
members. -/
inductive GriffeObj where
  | mk (name : String) (members : List (String × GriffeObj))
       (is_function : Bool) (returns : Option Expr)

def GriffeObj.name : GriffeObj → String
  | .mk n _ _ _ => n

def GriffeObj.members : GriffeObj → List (String × GriffeObj)
  | .mk _ ms _ _ => ms

def GriffeObj.is_function : GriffeObj → Bool
  | .mk _ _ f _ => f

def GriffeObj.returns : GriffeObj → Option Expr
  | .mk _ _ _ r => r

/-- Python's `s.endswith(target)`, embedded as a suffix test on the
character lists. -/
def pyEndsWith (s target : String) : Bool :=
  target.data.isSuffixOf s.data

mutual

/-- Embedding of `find_object_by_name` (demo_polars_lark.py lines 19-35):
return the node itself if its name ends with the target, else the first
immediate child whose name ends with the target, else the first success of
the recursive search through the children in order, else `none`. -/
def find_object_by_name (t : GriffeObj) (target : String) : Option GriffeObj :=
  match t with
  | .mk nm ms f r =>
    if pyEndsWith nm target then some (.mk nm ms f r)
    else
      match ms.find? (fun p => pyEndsWith p.2.name target) with
      | some p => some p.2
      | none => findInChildren ms target

/-- The third loop of `find_object_by_name`: recurse into each member in
order, returning the first non-`None` result. -/
def findInChildren (ms : List (String × GriffeObj)) (target : String) : Option GriffeObj :=
  match ms with
  | [] => none
  | p :: rest =>
    match find_object_by_name p.2 target with
    | some found => some found
    | none => findInChildren rest target

end

mutual

/-- The sequence of nodes examined by the search order that the spec
describes: the tree's own node first, then the immediate children, then
recursively the examination sequences of the children in order. -/
def visitSeq : GriffeObj → List GriffeObj
  | .mk nm ms f r => .mk nm ms f r :: (ms.map Prod.snd ++ visitChildren ms)

def visitChildren : List (String × GriffeObj) → List GriffeObj
  | [] => []
  | p :: rest => visitSeq p.2 ++ visitChildren rest

end

/-- An API map: class name to (method name to normalized return type or
absence), both mappings embedded as insertion-ordered association lists
(Python dicts preserve insertion order). -/
def ApiMap : Type := List (String × List (String × Option String))

/-- The method dictionary built for one found class in
`build_polars_api_map` (lines 85-103): every function-like immediate member
contributes its name mapped to its normalized return annotation. -/
def build_methods (ms : List (String × GriffeObj)) : List (String × Option String) :=
  ms.filterMap (fun p =>
    if p.2.is_function then some (p.1, normalize_returns p.2.returns) else none)

/-- The pure part of `build_polars_api_map` (lines 75-105), parameterised by
the member tree that `griffe.load("polars", ...)` returned: look every
requested class name up in the tree, keep the ones that were found
(preserving request order, silently dropping the missing ones), and build
each found class's method dictionary. -/
def buildApiMap (root : GriffeObj) (interesting : List String) : ApiMap :=
  interesting.filterMap (fun cls =>
    (find_object_by_name root cls).map (fun obj => (cls, build_methods obj.members)))

/-- The `interesting_classes` list of `build_polars_api_map` (line 75). -/
def interesting_classes : List String := ["DataFrame", "LazyFrame", "Expr"]

def build_polars_api_map (root : GriffeObj) : ApiMap :=
  buildApiMap root interesting_classes

/-- Python `d.get(k, default)` on an insertion-ordered dict embedding. -/
def pyDictGet {α : Type} (d : List (String × α)) (k : String) (default : α) : α :=
  match d.find? (fun p => p.1 == k) with
  | some p => p.2
  | none => default

/-- Python `s.upper()` on the method names (all ASCII here). -/
def pyUpper (s : String) : String :=
  String.mk (s.data.map Char.toUpper)

/-- A deterministic embedding of Python `set(l)` iteration: the elements of
`l` with duplicates removed, first occurrences kept in order.  Python's set
iteration order is unspecified; every theorem below that involves this
definition is independent of the chosen order. -/
def pySetList : List String → List String
  | [] => []
  | x :: xs => x :: (pySetList xs).filter (fun y => y ≠ x)

/-- `known_df_methods` (line 135): the builder-role allow-list. -/
def known_df_methods : List String := ["select", "filter", "groupby", "join", "lazy"]

/-- `known_lf_methods` (line 136): the lazy-role allow-list. -/
def known_lf_methods : List String := ["collect", "filter", "select", "groupby"]

/-- The method-name keys of the API map's "DataFrame" entry (iterating
`api_map.get("DataFrame", {})` yields its keys in insertion order). -/
def dfKeys (am : ApiMap) : List String :=
  (pyDictGet am "DataFrame" []).map Prod.fst

/-- The method-name keys of the API map's "LazyFrame" entry. -/
def lfKeys (am : ApiMap) : List String :=
  (pyDictGet am "LazyFrame" []).map Prod.fst

/-- `dataframe_methods = [m for m in df_methods if m in known_df_methods]`
(line 138). -/
def dataframe_methods (am : ApiMap) : List String :=
  (dfKeys am).filter (fun m => decide (m ∈ known_df_methods))

/-- `lazyframe_methods = [m for m in lf_methods if m in known_lf_methods]`
(line 139). -/
def lazyframe_methods (am : ApiMap) : List String :=
  (lfKeys am).filter (fun m => decide (m ∈ known_lf_methods))

/-- The union `set(dataframe_methods + lazyframe_methods)` iterated by the
rule-emission loop (line 142), under the deterministic set embedding. -/
def recognized_methods (am : ApiMap) : List String :=
  pySetList (dataframe_methods am ++ lazyframe_methods am)

/-- The per-method terminal rule text
`f'{uppercase_name}: ".{method}" "(" /[^)]*/ ")"'` (lines 143-144). -/
def mkMethodRule (m : String) : String :=
  pyUpper m ++ ": \"." ++ m ++ "\" \"(\" /[^)]*/ \")\""

/-- The `method_rules` list (lines 141-145). -/
def method_rules (am : ApiMap) : List String :=
  (recognized_methods am).map mkMethodRule

/-- `df_method_call_tokens` (line 155). -/
def df_method_call_tokens (am : ApiMap) : List String :=
  (dataframe_methods am).map pyUpper

/-- `lf_method_call_tokens` (line 156). -/
def lf_method_call_tokens (am : ApiMap) : List String :=
  (lazyframe_methods am).map pyUpper

/-- `df_call_rule` (lines 158-162): the builder-role alternation terminal,
or the unsatisfiable-by-method-calls placeholder when the role recognized
no methods. -/
def df_call_rule (am : ApiMap) : String :=
  if df_method_call_tokens am ≠ [] then
    "DF_METHOD_CALL: " ++ String.intercalate " | " (df_method_call_tokens am)
  else
    "DF_METHOD_CALL: /NO_DF_METHODS/"

/-- `lf_call_rule` (lines 163-167). -/
def lf_call_rule (am : ApiMap) : String :=
  if lf_method_call_tokens am ≠ [] then
    "LF_METHOD_CALL: " ++ String.intercalate " | " (lf_method_call_tokens am)
  else
    "LF_METHOD_CALL: /NO_LF_METHODS/"

/-- The `grammar_prelude` raw string (lines 110-123), transcribed byte for
byte (apostrophes written as the escape \x27). -/
def grammar_prelude : String :=
  "\n    ?start: polars_expression\n\n    // Let\x27s define a rule that can represent either a DataFrame chain or a LazyFrame chain.\n    ?polars_expression: dataframe_expression\n                      | lazyframe_expression\n\n    // For this demo, let\x27s treat \"df = pl.DataFrame(...)\" as a single token, ignoring arguments.\n    DATAFRAME_CALL: \"pl.DataFrame\" \"(\" /[^)]*/ \")\"\n\n    // We\x27ll do the same for \"df.lazy()\" calls, ignoring what\x27s inside.\n    LAZYFRAME_CALL: \".lazy\" \"(\" \")\"\n    "

/-- The `grammar_mid` raw string (lines 147-153). -/
def grammar_mid : String :=
  "\n    ?dataframe_expression: DATAFRAME_CALL dataframe_chain?\n    ?lazyframe_expression: DATAFRAME_CALL LAZYFRAME_CALL lazyframe_chain?\n\n    dataframe_chain: (DF_METHOD_CALL)+\n    lazyframe_chain: (LF_METHOD_CALL)+\n    "

/-- `generate_lark_grammar` (lines 106-180): the final
`"\n".join([...])` of the five grammar sections. -/
def generate_lark_grammar (am : ApiMap) : String :=
  String.intercalate "\n"
    [grammar_prelude,
     String.intercalate "\n" (method_rules am),
     grammar_mid,
     df_call_rule am,
     lf_call_rule am]

/-- The names of the terminal rules of the generated grammar text, in order
of appearance: `DATAFRAME_CALL` and `LAZYFRAME_CALL` from the prelude, one
upper-cased name per emitted method rule, then the two alternation
terminals. -/
def terminal_rule_names (am : ApiMap) : List String :=
  "DATAFRAME_CALL" :: "LAZYFRAME_CALL" ::
    ((recognized_methods am).map pyUpper ++ ["DF_METHOD_CALL", "LF_METHOD_CALL"])

/-! Semantics of the generated grammar.

The generated grammar has no `%ignore` directive, so a parse is an exact
decomposition of the input into consecutive token matches.  The following
predicates give the language of the generated grammar text over character
lists, one clause per grammar line. -/

/-- The strings matched by a per-method terminal
`NAME: ".method" "(" /[^)]*/ ")"`: a literal `.`, the method name, `(`, any
run of characters excluding `)`, and `)`. -/
def methodCallTok (m : String) (s : List Char) : Prop :=
  ∃ args : List Char, ')' ∉ args ∧ s = '.' :: (m.data ++ '(' :: (args ++ [')']))

/-- The strings matched by
`DATAFRAME_CALL: "pl.DataFrame" "(" /[^)]*/ ")"`. -/
def dataframeCallTok (s : List Char) : Prop :=
  ∃ c : List Char, ')' ∉ c ∧ s = "pl.DataFrame(".data ++ (c ++ [')'])

/-- The single string matched by `LAZYFRAME_CALL: ".lazy" "(" ")"`. -/
def lazyframeCallTokStr : List Char := ".lazy()".data

/-- The strings matched by a role's alternation terminal (`DF_METHOD_CALL`
or `LF_METHOD_CALL`): one of the role's method-call tokens, or — when the
role recognized no methods — exactly the literal text of the placeholder
pattern `/NO_.._METHODS/`. -/
def roleTok (methods : List String) (ph : String) (s : List Char) : Prop :=
  match methods with
  | [] => s = ph.data
  | _ :: _ => ∃ m, m ∈ methods ∧ methodCallTok m s

/-- `dataframe_chain: (DF_METHOD_CALL)+` and
`lazyframe_chain: (LF_METHOD_CALL)+`: one or more consecutive token
matches. -/
inductive TokChain (T : List Char → Prop) : List Char → Prop where
  | single (s : List Char) : T s → TokChain T s
  | cons (s rest : List Char) : T s → TokChain T rest → TokChain T (s ++ rest)

/-- The language of the grammar generated from `am`: a `DATAFRAME_CALL`
match followed by nothing (`dataframe_expression` with the optional chain
absent), or by a builder chain, or by the `LAZYFRAME_CALL` literal and an
optional lazy chain (`lazyframe_expression`). -/
def acceptsGrammar (am : ApiMap) (s : List Char) : Prop :=
  ∃ d rest, dataframeCallTok d ∧ s = d ++ rest ∧
    (rest = []
     ∨ TokChain (roleTok (dataframe_methods am) "NO_DF_METHODS") rest
     ∨ ∃ tail, rest = lazyframeCallTokStr ++ tail ∧
         (tail = [] ∨ TokChain (roleTok (lazyframe_methods am) "NO_LF_METHODS") tail))

/-! Helper lemmas. -/

theorem mem_pySetList {a : String} : ∀ {l : List String}, a ∈ pySetList l ↔ a ∈ l := by
  intro l
  induction l with
  | nil => simp [pySetList]
  | cons x xs ih =>
    by_cases hax : a = x
    · simp [pySetList, hax]
    · simp [pySetList, List.mem_filter, hax, ih]

theorem pySetList_nodup : ∀ l : List String, (pySetList l).Nodup := by
  intro l
  induction l with
  | nil => simp [pySetList]
  | cons x xs ih =>
    rw [pySetList, List.nodup_cons]
    refine ⟨fun hmem => ?_, ih.filter _⟩
    have := (List.mem_filter.mp hmem).2
    simp at this

theorem mem_dataframe_methods {am : ApiMap} {m : String} :
    m ∈ dataframe_methods am ↔ m ∈ dfKeys am ∧ m ∈ known_df_methods := by
  simp [dataframe_methods, List.mem_filter]

theorem mem_lazyframe_methods {am : ApiMap} {m : String} :
    m ∈ lazyframe_methods am ↔ m ∈ lfKeys am ∧ m ∈ known_lf_methods := by
  simp [lazyframe_methods, List.mem_filter]

theorem mem_recognized_methods {am : ApiMap} {m : String} :
    m ∈ recognized_methods am ↔
      (m ∈ dfKeys am ∧ m ∈ known_df_methods) ∨ (m ∈ lfKeys am ∧ m ∈ known_lf_methods) := by
  rw [recognized_methods, mem_pySetList, List.mem_append,
      mem_dataframe_methods, mem_lazyframe_methods]

theorem recognized_subset {am : ApiMap} {m : String} (h : m ∈ recognized_methods am) :
    m ∈ known_df_methods ∨ m ∈ known_lf_methods := by
  rcases mem_recognized_methods.mp h with h1 | h1
  · exact Or.inl h1.2
  · exact Or.inr h1.2

/-- The union of the two allow-lists, used to finitely enumerate every
method name that can ever be recognized. -/
def known_union : List String := known_df_methods ++ known_lf_methods

theorem recognized_mem_known_union {am : ApiMap} {m : String}
    (h : m ∈ recognized_methods am) : m ∈ known_union := by
  rw [known_union, List.mem_append]
  exact recognized_subset h

theorem pyUpper_inj_known :
    ∀ a ∈ known_union, ∀ b ∈ known_union, pyUpper a = pyUpper b → a = b := by decide

theorem mkMethodRule_inj_known :
    ∀ a ∈ known_union, ∀ b ∈ known_union, mkMethodRule a = mkMethodRule b → a = b := by decide

theorem pyUpper_known_ne_fixed :
    ∀ a ∈ known_union, pyUpper a ≠ "DATAFRAME_CALL" ∧ pyUpper a ≠ "LAZYFRAME_CALL" ∧
      pyUpper a ≠ "DF_METHOD_CALL" ∧ pyUpper a ≠ "LF_METHOD_CALL" := by decide

theorem method_rules_nodup (am : ApiMap) : (method_rules am).Nodup :=
  (pySetList_nodup _).map_on (fun a ha b hb hab =>
    mkMethodRule_inj_known a (recognized_mem_known_union ha)
      b (recognized_mem_known_union hb) hab)

theorem mapped_names_nodup (am : ApiMap) : ((recognized_methods am).map pyUpper).Nodup :=
  (pySetList_nodup _).map_on (fun a ha b hb hab =>
    pyUpper_inj_known a (recognized_mem_known_union ha)
      b (recognized_mem_known_union hb) hab)

/-! Claims about the grammar synthesizer. -/

/-- C1: For every API map, the synthesizer emits exactly one terminal
rule per method name in the union of (discovered DataFrame method names ∩
the builder allow-list) and (discovered LazyFrame method names ∩ the lazy
allow-list); each rule is named by the method name upper-cased and is the
text matching a literal `.` + name + `(` + any non-`)` run + `)`; and every
emitted rule belongs to a method of that union (none for methods outside
it). -/
theorem one_terminal_rule_per_recognized_method (am : ApiMap) (m : String) :
    (m ∈ recognized_methods am ↔
      (m ∈ dfKeys am ∧ m ∈ known_df_methods) ∨ (m ∈ lfKeys am ∧ m ∈ known_lf_methods))
    ∧ (m ∈ recognized_methods am → (method_rules am).count (mkMethodRule m) = 1)
    ∧ (∀ r ∈ method_rules am, ∃ m2, m2 ∈ recognized_methods am ∧ r = mkMethodRule m2)
    ∧ mkMethodRule m = pyUpper m ++ ": \"." ++ m ++ "\" \"(\" /[^)]*/ \")\"" := by
  refine ⟨mem_recognized_methods, fun hm => ?_, fun r hr => ?_, rfl⟩
  · exact List.count_eq_one_of_mem (method_rules_nodup am) (List.mem_map_of_mem _ hm)
  · rcases List.mem_map.mp hr with ⟨m2, hm2, rfl⟩
    exact ⟨m2, hm2, rfl⟩

/-- A concrete API map used by witnesses: `DataFrame` with a recognized and
an unrecognized method, `LazyFrame` with a recognized method. -/
def witnessApiMap : ApiMap :=
  [("DataFrame", [("filter", some "DataFrame"), ("to_csv", none)]),
   ("LazyFrame", [("collect", some "DataFrame")])]

/-- Witness for C1 at a concrete API map and method name. -/
theorem one_terminal_rule_per_recognized_method_witness :
    "filter" ∈ recognized_methods witnessApiMap ∧
      (method_rules witnessApiMap).count (mkMethodRule "filter") = 1 :=
  ⟨by decide, (one_terminal_rule_per_recognized_method witnessApiMap "filter").2.1 (by decide)⟩

/-- C2: Every method name listed in the `DF_METHOD_CALL` or
`LF_METHOD_CALL` alternation rule appears, upper-cased, as the name of
exactly one terminal rule of the same grammar text (a method recognized for
both roles still has exactly one rule). -/
theorem alternation_token_has_unique_terminal_rule (am : ApiMap) (T : String)
    (h : T ∈ df_method_call_tokens am ++ lf_method_call_tokens am) :
    (terminal_rule_names am).count T = 1 := by
  have hrec : ∃ m, m ∈ recognized_methods am ∧ T = pyUpper m := by
    rcases List.mem_append.mp h with h1 | h1
    · rcases List.mem_map.mp h1 with ⟨m, hm, rfl⟩
      exact ⟨m, mem_recognized_methods.mpr (Or.inl (mem_dataframe_methods.mp hm)), rfl⟩
    · rcases List.mem_map.mp h1 with ⟨m, hm, rfl⟩
      exact ⟨m, mem_recognized_methods.mpr (Or.inr (mem_lazyframe_methods.mp hm)), rfl⟩
  rcases hrec with ⟨m, hm, rfl⟩
  have hne := pyUpper_known_ne_fixed m (recognized_mem_known_union hm)
  have hcount1 : ((recognized_methods am).map pyUpper).count (pyUpper m) = 1 :=
    List.count_eq_one_of_mem (mapped_names_nodup am) (List.mem_map_of_mem _ hm)
  simp [terminal_rule_names, List.count_cons, List.count_append, hcount1,
        hne.1, hne.2.1, hne.2.2.1, hne.2.2.2]

/-- Witness for C2 at a concrete API map and token. -/
theorem alternation_token_has_unique_terminal_rule_witness :
    "COLLECT" ∈ df_method_call_tokens witnessApiMap ++ lf_method_call_tokens witnessApiMap ∧
      (terminal_rule_names witnessApiMap).count "COLLECT" = 1 :=
  ⟨by decide, alternation_token_has_unique_terminal_rule witnessApiMap "COLLECT" (by decide)⟩

/-- C9: The synthesized grammar text depends only on the sequences of
method-name keys of the API map's `DataFrame` and `LazyFrame` entries: two
API maps agreeing on those key sequences (even with entirely different
return-type values or extra entries) get identical grammar text. -/
theorem grammar_depends_only_on_method_keys (am1 am2 : ApiMap)
    (h1 : dfKeys am1 = dfKeys am2) (h2 : lfKeys am1 = lfKeys am2) :
    generate_lark_grammar am1 = generate_lark_grammar am2 := by
  simp only [generate_lark_grammar, method_rules, recognized_methods, df_call_rule,
             lf_call_rule, df_method_call_tokens, lf_method_call_tokens,
             dataframe_methods, lazyframe_methods, h1, h2]

/-- Second API map for the C9 witness: same method-name key sequences as
`witnessApiMap`, entirely different return-type values, plus an extra
`Expr` entry. -/
def witnessApiMap2 : ApiMap :=
  [("DataFrame", [("filter", none), ("to_csv", some "pd.DataFrame")]),
   ("LazyFrame", [("collect", none)]),
   ("Expr", [("alias", some "Expr")])]

/-- Witness for C9: the two concrete API maps agree on key sequences and
get identical grammar text. -/
theorem grammar_depends_only_on_method_keys_witness :
    dfKeys witnessApiMap = dfKeys witnessApiMap2 ∧
      lfKeys witnessApiMap = lfKeys witnessApiMap2 ∧
      generate_lark_grammar witnessApiMap = generate_lark_grammar witnessApiMap2 :=
  ⟨by decide, by decide,
   grammar_depends_only_on_method_keys witnessApiMap witnessApiMap2 (by decide) (by decide)⟩

/-! Claims about the return-type normalizer. -/

/-- C4: Return-type normalization equals the spec's reference
definition: absent when no expression is present; a plain name verbatim;
for an attribute chain the depth-first left-to-right flattening of its
elements (a name contributes itself, a nested chain its own flattening, any
other element its opaque rendering) joined with "."; an opaque rendering
for any other expression kind.  Both sides are total Lean functions, so
normalization never fails on any expression shape. -/
theorem normalize_returns_eq_spec (o : Option Expr) :
    normalize_returns o = normalize_spec o := by
  match o with
  | none => rfl
  | some (Expr.name s) => rfl
  | some (Expr.other r) => rfl
  | some (Expr.attribute vs) =>
    simp only [normalize_returns, normalize_spec, flatten_eq_leaves]

/-- C5 counterexample: The claim "flattening an AttributeChain always
yields a non-empty sequence" fails at the concrete input
`ExprAttribute(values=[])`: the flattening loop runs zero times and returns
the empty list. -/
theorem flatten_empty_chain_counterexample :
    ¬ (flatten_expr_attribute ([] : List Expr) ≠ []) := by
  intro h
  exact h (by simp [flatten_expr_attribute])

/-- C5 amended: Flattening an AttributeChain yields exactly the
depth-first, left-to-right sequence of the leaf fragments of its values
(outermost-first); the result is empty exactly when every value contributes
no fragment, and in particular it is non-empty whenever the chain has at
least one leaf. -/
theorem flatten_chain_leaf_fragments (vs : List Expr) :
    flatten_expr_attribute vs = (vs.map exprLeaves).flatten ∧
      (flatten_expr_attribute vs = [] ↔ ∀ e ∈ vs, exprLeaves e = []) := by
  refine ⟨flatten_eq_leaves vs, ?_⟩
  rw [flatten_eq_leaves vs, List.flatten_eq_nil_iff]
  constructor
  · intro h e he
    exact h (exprLeaves e) (List.mem_map_of_mem _ he)
  · intro h l hl
    rcases List.mem_map.mp hl with ⟨e, he, rfl⟩
    exact h e he

/-- Witness for the amended C5 at a concrete chain
(`ExprAttribute(values=[ExprName('pd'), ExprName('DataFrame')])`). -/
theorem flatten_chain_leaf_fragments_witness :
    flatten_expr_attribute ([Expr.name "pd", Expr.name "DataFrame"]) =
        (([Expr.name "pd", Expr.name "DataFrame"]).map exprLeaves).flatten ∧
      (flatten_expr_attribute ([Expr.name "pd", Expr.name "DataFrame"]) = [] ↔
        ∀ e ∈ [Expr.name "pd", Expr.name "DataFrame"], exprLeaves e = []) :=
  flatten_chain_leaf_fragments [Expr.name "pd", Expr.name "DataFrame"]

/-! Claims about the tree search. -/

theorem find_key : ∀ (n : Nat) (t : GriffeObj) (target : String), sizeOf t ≤ n →
    find_object_by_name t target =
      (visitSeq t).find? (fun o => pyEndsWith o.name target) := by
  intro n
  induction n with
  | zero =>
    intro t target h
    exfalso
    cases t with
    | mk nm ms f r => simp [GriffeObj.mk.sizeOf_spec] at h
  | succ n ih =>
    intro t target ht
    cases t with
    | mk nm ms f r =>
      have hms : sizeOf ms ≤ n := by
        have hspec : sizeOf (GriffeObj.mk nm ms f r) = 1 + sizeOf nm + sizeOf ms + sizeOf f + sizeOf r := by
          simp [GriffeObj.mk.sizeOf_spec]
        omega
      have hch : ∀ ms2 : List (String × GriffeObj), sizeOf ms2 ≤ n →
          findInChildren ms2 target =
            (visitChildren ms2).find? (fun o => pyEndsWith o.name target) := by
        intro ms2
        induction ms2 with
        | nil =>
          intro _
          simp [findInChildren, visitChildren]
        | cons p rest ihr =>
          intro hsz
          obtain ⟨key, child⟩ := p
          have hsz2 : sizeOf ((key, child) :: rest) =
              1 + (1 + sizeOf key + sizeOf child) + sizeOf rest := by
            simp [List.cons.sizeOf_spec, Prod.mk.sizeOf_spec]
          have hchild : sizeOf child ≤ n := by omega
          have hrest : sizeOf rest ≤ n := by omega
          simp only [findInChildren, visitChildren]
          rw [List.find?_append, ih child target hchild, ihr hrest]
          cases hfp : (visitSeq child).find? (fun o => pyEndsWith o.name target) with
          | none => simp [hfp]
          | some found => simp [hfp]
      simp only [find_object_by_name, visitSeq]
      by_cases hroot : pyEndsWith nm target = true
      · rw [List.find?_cons_of_pos _ (by simpa [GriffeObj.name] using hroot)]
        simp [hroot]
      · rw [List.find?_cons_of_neg _ (by simpa [GriffeObj.name] using hroot)]
        rw [List.find?_append, List.find?_map, hch ms hms]
        have hcomp : ((fun o => pyEndsWith o.name target) ∘ Prod.snd
              : String × GriffeObj → Bool) =
            (fun p => pyEndsWith p.2.name target) := rfl
        rw [hcomp]
        simp only [Bool.not_eq_true] at hroot
        simp only [hroot, Bool.false_eq_true, if_false]
        cases hf : ms.find? (fun p => pyEndsWith p.2.name target) with
        | none => simp [hf]
        | some p => simp [hf]

/-- C6: For every member tree and requested class name, the search of
`find_object_by_name` returns exactly the first node, in the examination
order described by the spec (own node, then immediate children, then the
recursive searches into the children in order), whose name ends with the
requested name; and `none` when no examined node matches. -/
theorem find_object_by_name_eq_visit_order (t : GriffeObj) (target : String) :
    find_object_by_name t target =
      (visitSeq t).find? (fun o => pyEndsWith o.name target) :=
  find_key (sizeOf t) t target (Nat.le_refl _)

/-- C7: A requested class name whose tree search finds no node is
silently omitted from the API map: its key is absent from the result.  The
embedded builder is a total function, so the discovery also raises no
error. -/
theorem missing_class_is_omitted (root : GriffeObj) (interesting : List String)
    (cls : String) (h : find_object_by_name root cls = none) :
    cls ∉ (buildApiMap root interesting).map Prod.fst := by
  intro hmem
  rcases List.mem_map.mp hmem with ⟨entry, hentry, hfst⟩
  rcases List.mem_filterMap.mp hentry with ⟨cls2, _hc2, hopt⟩
  rcases Option.map_eq_some'.mp hopt with ⟨obj, hfind, rfl⟩
  simp only at hfst
  rw [hfst] at hfind
  rw [h] at hfind
  exact Option.noConfusion hfind

/-- A concrete member tree used by witnesses: a `polars` module owning a
`DataFrame` class with one function-like member, and no `LazyFrame`. -/
def witnessTree : GriffeObj :=
  .mk "polars"
    [("DataFrame",
      .mk "DataFrame" [("filter", .mk "filter" [] true (some (Expr.name "DataFrame")))]
        false none)]
    false none

/-- Witness for C7: on the concrete tree the search for `LazyFrame` fails
and the resulting API map has no `LazyFrame` key. -/
theorem missing_class_is_omitted_witness :
    find_object_by_name witnessTree "LazyFrame" = none ∧
      "LazyFrame" ∉ (buildApiMap witnessTree interesting_classes).map Prod.fst :=
  ⟨by simp +decide [find_object_by_name, findInChildren, witnessTree, GriffeObj.name],
   missing_class_is_omitted witnessTree interesting_classes "LazyFrame"
     (by simp +decide [find_object_by_name, findInChildren, witnessTree, GriffeObj.name])⟩

mutual

/-- Fuel-indexed form of the unbounded recursion of `find_object_by_name`:
`none` means the fuel ran out before the search finished, `some res` means
the search finished with result `res`. -/
def find_object_by_name_fuel : Nat → GriffeObj → String → Option (Option GriffeObj)
  | 0, _, _ => none
  | Nat.succ n, t, target =>
    match t with
    | .mk nm ms f r =>
      if pyEndsWith nm target then some (some (.mk nm ms f r))
      else
        match ms.find? (fun p => pyEndsWith p.2.name target) with
        | some p => some (some p.2)
        | none => findInChildrenFuel n ms target

/-- Fuel-indexed form of the recursion loop over the children. -/
def findInChildrenFuel : Nat → List (String × GriffeObj) → String → Option (Option GriffeObj)
  | _, [], _ => some none
  | n, p :: rest, target =>
    match find_object_by_name_fuel n p.2 target with
    | none => none
    | some (some found) => some (some found)
    | some none => findInChildrenFuel n rest target

end

theorem fuel_key : ∀ (n : Nat) (t : GriffeObj) (target : String), sizeOf t ≤ n →
    find_object_by_name_fuel n t target = some (find_object_by_name t target) := by
  intro n
  induction n with
  | zero =>
    intro t target h
    exfalso
    cases t with
    | mk nm ms f r => simp [GriffeObj.mk.sizeOf_spec] at h
  | succ n ih =>
    intro t target ht
    cases t with
    | mk nm ms f r =>
      have hms : sizeOf ms ≤ n := by
        have hspec : sizeOf (GriffeObj.mk nm ms f r) = 1 + sizeOf nm + sizeOf ms + sizeOf f + sizeOf r := by
          simp [GriffeObj.mk.sizeOf_spec]
        omega
      have hch : ∀ ms2 : List (String × GriffeObj), sizeOf ms2 ≤ n →
          findInChildrenFuel n ms2 target = some (findInChildren ms2 target) := by
        intro ms2
        induction ms2 with
        | nil =>
          intro _
          simp [findInChildrenFuel, findInChildren]
        | cons p rest ihr =>
          intro hsz
          obtain ⟨key, child⟩ := p
          have hsz2 : sizeOf ((key, child) :: rest) =
              1 + (1 + sizeOf key + sizeOf child) + sizeOf rest := by
            simp [List.cons.sizeOf_spec, Prod.mk.sizeOf_spec]
          have hchild : sizeOf child ≤ n := by omega
          have hrest : sizeOf rest ≤ n := by omega
          simp only [findInChildrenFuel, findInChildren]
          rw [ih child target hchild, ihr hrest]
          cases hfp : find_object_by_name child target with
          | none => simp [hfp]
          | some found => simp [hfp]
      simp only [find_object_by_name_fuel, find_object_by_name]
      by_cases hroot : pyEndsWith nm target = true
      · simp [hroot]
      · simp only [Bool.not_eq_true] at hroot
        simp only [hroot, Bool.false_eq_true, if_false]
        cases hf : ms.find? (fun p => pyEndsWith p.2.name target) with
        | none => simpa [hf] using hch ms hms
        | some p => simp [hf]

/-- C10: For every finite member tree (every value of the inductive
tree type is finite and acyclic), the recursive search terminates: running
the fuel-indexed search with fuel equal to the tree's size never exhausts
the fuel and agrees with the total search function. -/
theorem find_object_by_name_terminates (t : GriffeObj) (target : String) :
    find_object_by_name_fuel (sizeOf t) t target = some (find_object_by_name t target) :=
  fuel_key (sizeOf t) t target (Nat.le_refl _)

/-! Language lemmas for the placeholder and parse-failure claims. -/

theorem split_at_first_rparen :
    ∀ (c C r R : List Char), ')' ∉ c → ')' ∉ C →
      c ++ ')' :: r = C ++ ')' :: R → c = C ∧ r = R := by
  intro c
  induction c with
  | nil =>
    intro C r R _ hC h
    cases C with
    | nil =>
      simp only [List.nil_append] at h
      exact ⟨rfl, (List.cons.inj h).2⟩
    | cons b bs =>
      simp only [List.nil_append, List.cons_append] at h
      rcases List.cons.inj h with ⟨hb, _⟩
      exact absurd (hb ▸ List.mem_cons_self b bs) hC
  | cons a as ih =>
    intro C r R hc hC h
    cases C with
    | nil =>
      simp only [List.cons_append, List.nil_append] at h
      rcases List.cons.inj h with ⟨ha, _⟩
      exact absurd (ha ▸ List.mem_cons_self a as) hc
    | cons b bs =>
      simp only [List.cons_append] at h
      rcases List.cons.inj h with ⟨hab, htail⟩
      have hc2 : ')' ∉ as := fun hx => hc (List.mem_cons_of_mem a hx)
      have hC2 : ')' ∉ bs := fun hx => hC (List.mem_cons_of_mem b hx)
      rcases ih bs r R hc2 hC2 htail with ⟨h1, h2⟩
      exact ⟨by rw [hab, h1], h2⟩

theorem tokChain_head {T : List Char → Prop} {s : List Char} (h : TokChain T s) :
    ∃ tok tail, T tok ∧ s = tok ++ tail := by
  cases h with
  | single s hs => exact ⟨s, [], hs, by simp⟩
  | cons s rest hs hrest => exact ⟨s, rest, hs, rfl⟩

theorem known_df_methods_head :
    ∀ m ∈ known_df_methods, m.data ≠ [] ∧ m.data.head? ≠ some 'c' := by decide

/-- The left-associated unfolding of the five-section
`"\n".join` in `generate_lark_grammar`. -/
theorem generate_lark_grammar_unfold (am : ApiMap) :
    generate_lark_grammar am =
      grammar_prelude ++ "\n" ++ String.intercalate "\n" (method_rules am) ++ "\n" ++
        grammar_mid ++ "\n" ++ df_call_rule am ++ "\n" ++ lf_call_rule am := rfl

/-- C3: For every API map in which a role recognized zero methods, the
grammar text still contains that role's alternation rule, now with the
placeholder pattern (`/NO_DF_METHODS/` resp. `/NO_LF_METHODS/`), and the
placeholder matches no method-call-shaped input (no string of the form
`.` + name + `(` + non-`)` run + `)`), so the branch can never match real
chain input; grammar construction itself is a total function and never
fails on zero recognized methods. -/
theorem zero_methods_placeholder (am : ApiMap) :
    (dataframe_methods am = [] →
      df_call_rule am = "DF_METHOD_CALL: /NO_DF_METHODS/" ∧
      (∃ pre post, (generate_lark_grammar am).data =
        pre ++ "DF_METHOD_CALL: /NO_DF_METHODS/".data ++ post) ∧
      (∀ s, roleTok (dataframe_methods am) "NO_DF_METHODS" s →
        ∀ m, ¬ methodCallTok m s))
    ∧ (lazyframe_methods am = [] →
      lf_call_rule am = "LF_METHOD_CALL: /NO_LF_METHODS/" ∧
      (∃ pre post, (generate_lark_grammar am).data =
        pre ++ "LF_METHOD_CALL: /NO_LF_METHODS/".data ++ post) ∧
      (∀ s, roleTok (lazyframe_methods am) "NO_LF_METHODS" s →
        ∀ m, ¬ methodCallTok m s)) := by
  constructor
  · intro h
    have htok : df_method_call_tokens am = [] := by
      simp [df_method_call_tokens, h]
    have hrule : df_call_rule am = "DF_METHOD_CALL: /NO_DF_METHODS/" := by
      simp [df_call_rule, htok]
    refine ⟨hrule, ?_, ?_⟩
    · refine ⟨(grammar_prelude ++ "\n" ++ String.intercalate "\n" (method_rules am) ++ "\n" ++
          grammar_mid ++ "\n").data, ("\n" ++ lf_call_rule am).data, ?_⟩
      rw [generate_lark_grammar_unfold am, hrule]
      simp [List.append_assoc]
    · intro s hs m hm
      rw [h] at hs
      simp only [roleTok] at hs
      rcases hm with ⟨args, _, rfl⟩
      exact absurd (List.cons.inj hs).1 (by decide)
  · intro h
    have htok : lf_method_call_tokens am = [] := by
      simp [lf_method_call_tokens, h]
    have hrule : lf_call_rule am = "LF_METHOD_CALL: /NO_LF_METHODS/" := by
      simp [lf_call_rule, htok]
    refine ⟨hrule, ?_, ?_⟩
    · refine ⟨(grammar_prelude ++ "\n" ++ String.intercalate "\n" (method_rules am) ++ "\n" ++
          grammar_mid ++ "\n" ++ df_call_rule am ++ "\n").data, ([] : List Char), ?_⟩
      rw [generate_lark_grammar_unfold am, hrule]
      simp [List.append_assoc]
    · intro s hs m hm
      rw [h] at hs
      simp only [roleTok] at hs
      rcases hm with ⟨args, _, rfl⟩
      exact absurd (List.cons.inj hs).1 (by decide)

/-- Witness for C3: the empty API map recognizes zero methods for both
roles, and the theorem produces the placeholder rules for it. -/
theorem zero_methods_placeholder_witness :
    dataframe_methods ([] : ApiMap) = [] ∧
      df_call_rule ([] : ApiMap) = "DF_METHOD_CALL: /NO_DF_METHODS/" ∧
      lf_call_rule ([] : ApiMap) = "LF_METHOD_CALL: /NO_LF_METHODS/" :=
  ⟨by decide,
   ((zero_methods_placeholder ([] : ApiMap)).1 (by decide)).1,
   ((zero_methods_placeholder ([] : ApiMap)).2 (by decide)).1⟩

/-- The test snippet of C8: a `pl.DataFrame(...)` construction directly
followed by `.collect()`, with no `.lazy()` transition. -/
def collectSnippet : String := "pl.DataFrame(\x7b\"x\": [1,2,3]\x7d).collect()"

theorem collectSnippet_decomp :
    collectSnippet.data =
      "pl.DataFrame(".data ++ ("\x7b\"x\": [1,2,3]\x7d".data ++ ')' :: ".collect()".data) := by
  decide

theorem no_rparen_in_arg : (')' : Char) ∉ "\x7b\"x\": [1,2,3]\x7d".data := by decide

/-- C8: When `collect` is recognized only for the lazy role (`collect`
is absent from the builder allow-list), the input
`pl.DataFrame({"x": [1,2,3]}).collect()` — which contains no `.lazy()`
transition — is not in the language of the synthesized grammar, so parsing
it fails with a syntax error. -/
theorem collect_without_lazy_fails (am : ApiMap)
    (_hcollect : "collect" ∈ lazyframe_methods am) :
    "collect" ∉ known_df_methods ∧ ¬ acceptsGrammar am collectSnippet.data := by
  refine ⟨by decide, ?_⟩
  rintro ⟨d, rest, ⟨c, hc, rfl⟩, hsplit, hbranch⟩
  rw [collectSnippet_decomp] at hsplit
  have hassoc : ("pl.DataFrame(".data ++ (c ++ [')'])) ++ rest =
      "pl.DataFrame(".data ++ (c ++ ')' :: rest) := by
    simp
  rw [hassoc] at hsplit
  have hsplit2 := List.append_cancel_left hsplit
  rcases split_at_first_rparen _ _ _ _ no_rparen_in_arg hc hsplit2 with ⟨_, hrest⟩
  subst hrest
  have hR : ".collect()".data = '.' :: "collect()".data := rfl
  rcases hbranch with hnil | hchain | ⟨tail, hlazy, _⟩
  · exact absurd hnil (by decide)
  · rcases tokChain_head hchain with ⟨tok, tail, htok, heq⟩
    cases hdm : dataframe_methods am with
    | nil =>
      rw [hdm] at htok
      simp only [roleTok] at htok
      subst htok
      rw [hR] at heq
      have : ('.' : Char) = 'N' := by
        have e : ("NO_DF_METHODS".data ++ tail) = 'N' :: ("O_DF_METHODS".data ++ tail) := rfl
        rw [e] at heq
        exact (List.cons.inj heq).1
      exact absurd this (by decide)
    | cons m0 ms' =>
      rw [hdm] at htok
      simp only [roleTok] at htok
      rcases htok with ⟨m, hmem, args, _hargs, rfl⟩
      rw [← hdm] at hmem
      have hknown : m ∈ known_df_methods := (mem_dataframe_methods.mp hmem).2
      rcases known_df_methods_head m hknown with ⟨hne, hhead⟩
      rw [hR, List.cons_append] at heq
      have h2 := (List.cons.inj heq).2
      cases hmd : m.data with
      | nil => exact hne hmd
      | cons ch mrest =>
        rw [hmd, List.cons_append, List.cons_append] at h2
        have e3 : "collect()".data = 'c' :: "ollect()".data := rfl
        rw [e3] at h2
        have hch : ('c' : Char) = ch := (List.cons.inj h2).1
        rw [hmd] at hhead
        exact hhead (by rw [← hch]; rfl)
  · rw [hR] at hlazy
    have e4 : (lazyframeCallTokStr ++ tail) = '.' :: ("lazy()".data ++ tail) := rfl
    rw [e4] at hlazy
    have h5 := (List.cons.inj hlazy).2
    have e5 : "collect()".data = 'c' :: "ollect()".data := rfl
    have e6 : ("lazy()".data ++ tail) = 'l' :: ("azy()".data ++ tail) := rfl
    rw [e5, e6] at h5
    exact absurd (List.cons.inj h5).1 (by decide)

/-- Witness for C8 at the concrete `witnessApiMap`, whose `LazyFrame` entry
recognizes `collect`. -/
theorem collect_without_lazy_fails_witness :
    "collect" ∈ lazyframe_methods witnessApiMap ∧
      ("collect" ∉ known_df_methods ∧
        ¬ acceptsGrammar witnessApiMap collectSnippet.data) :=
  ⟨by decide, collect_without_lazy_fails witnessApiMap (by decide)⟩

end Dslgen
